import Mathlib

/-!
Verification of the ARPU assembler/emulator core.

The definitions below are a shallow embedding of the TypeScript sources:
`src/asm/AsmLine.ts`, `src/asm/mnemonics.ts` and the emulator
(`ARPUEmulator.ts`, the snapshot with the `cycle` counter and the SOP
handler).  Machine words are `Nat` with explicit wrapping; fallible
operations return `Except String`.  Parts of the repository that are not
present in the source tree (`Operand.ts`, `assemble.ts`,
`emulator-constants.ts`, `common-util.ts`, `asm-util.ts`) are modelled
from the specification and carry a doc comment saying so.
-/

/-- Modelled from the spec: `Operand.ts` is not in the source tree.  An
operand is a register index, a literal integer, or a label reference; a
label reference is unresolved until the assembler's second pass fills in
the literal integer equal to the target's byte offset.  `label` is the
symbolic name (for label references), `immediate` the resolved literal. -/
structure Operand where
  label : Option String
  immediate : Option Nat
deriving DecidableEq

instance : Inhabited Operand := ⟨⟨none, none⟩⟩

/-- `Operand.toInt()`: the resolved literal value, `undefined` (here
`none`) while the operand is an unresolved label reference. -/
def Operand.toInt (o : Operand) : Option Nat := o.immediate

/-- `Operand.getLabel()`: the label name of a label-reference operand. -/
def Operand.getLabel (o : Operand) : Option String := o.label

/-- A literal (or register-index) operand, with no label attached. -/
def litOp (n : Nat) : Operand := ⟨none, some n⟩

/-- A resolved label-reference operand: label name plus filled-in offset. -/
def labelOp (name : String) (n : Nat) : Operand := ⟨some name, some n⟩

/-- `mnemonics.ts`: the data directive. -/
def DATA_MNEMONIC : String := "DW"

/-- `mnemonics.ts`: the fixed 16-entry instruction mnemonic table; a
mnemonic's opcode is its index in this table. -/
def INSTRUCTION_MNEMONICS : List String :=
  ["ADD", "SUB", "RSH", "INC", "DEC", "BIT", "CAL", "RET",
   "PST", "PLD", "IMM", "STR", "LOD", "SOP", "BRA", "MOV"]

/-- `AsmLine.ts`: one instruction record of the intermediate
representation.  The TypeScript constructor stores `isData`,
`sizeInBytes` and `opcode` computed from `mnemonic` and `operands`; here
they are the derived functions below.  `offsetInBytes` and `label` start
unset and are assigned during assembly. -/
structure AsmLine where
  mnemonic : String
  operands : List Operand
  offsetInBytes : Option Nat := none
  label : Option String := none
deriving DecidableEq

instance : Inhabited AsmLine := ⟨⟨"", [], none, none⟩⟩

/-- `AsmLine.isData`, computed in the constructor via `asm-util.ts`'s
`isData` (modelled from the spec: a record is data iff its mnemonic is
the data directive). -/
def AsmLine.getIsData (l : AsmLine) : Bool := l.mnemonic == DATA_MNEMONIC

/-- `AsmLine.sizeInBytes`: 2 bytes for a record with exactly 3 operands
(the third operand occupies a dedicated immediate/address byte), else 1. -/
def AsmLine.sizeInBytes (l : AsmLine) : Nat :=
  if l.operands.length == 3 then 2 else 1

/-- `AsmLine.opcode`: index of the mnemonic in the instruction table;
`findIndex` yields -1 when the mnemonic is not an instruction (e.g. the
data directive). -/
def AsmLine.opcode (l : AsmLine) : Int :=
  match INSTRUCTION_MNEMONICS.findIdx? (fun m => l.mnemonic == m) with
  | some i => (i : Int)
  | none => -1

/-- `AsmLine.getBytes()`: fails if some operand is an unresolved label;
otherwise packs operand 1 (or 0 if absent) into bits 6-7, operand 0 into
bits 4-5 and the opcode into bits 0-3 of byte one (the TypeScript `<< 6`
and `<< 4` are the multiplications by 64 and 16), and emits a present
third operand verbatim as byte two. -/
def AsmLine.getBytes (l : AsmLine) : Except String (List Int) :=
  let operandInts := l.operands.map Operand.toInt
  if operandInts.any (fun i => i.isNone) then
    Except.error "Some operands that are labels were not filled with immediate values"
  else
    let operandInt1 : Int := ((operandInts.getD 0 none).getD 0 : Nat)
    let operandInt2 : Int := ((operandInts.getD 1 none).getD 0 : Nat)
    let byte1 : Int := operandInt2 * 64 + operandInt1 * 16 + l.opcode
    match operandInts.getD 2 none with
    | none => Except.ok [byte1]
    | some v => Except.ok [byte1, (v : Int)]

/-- `AsmLine.isHalt()`: a BRA whose third operand's label equals the
record's own label (in TypeScript both may be `undefined`, and
`undefined === undefined` holds, as `none = none` does here), or a RET
whose first operand resolves to the literal 1 (`operands[0]?.toInt() === 1`;
an absent operand compares unequal to 1). -/
def AsmLine.isHalt (l : AsmLine) : Bool :=
  let isSelfBranch :=
    l.mnemonic == "BRA" && (l.operands.getD 2 default).getLabel == l.label
  let isReturnOne :=
    l.mnemonic == "RET" && (l.operands.getD 0 default).toInt == some 1
  isSelfBranch || isReturnOne

/-- Modelled from the spec: the encoder (`assemble.ts`, not in the source
tree) serializes one record; an instruction record contributes its
`getBytes()` output, while a data-directive record emits its single
literal operand as one raw byte with no opcode encoding. -/
def emitRecord (l : AsmLine) : Except String (List Int) :=
  if l.getIsData then
    match (l.operands.getD 0 default).toInt with
    | some v => Except.ok [(v : Int)]
    | none => Except.error "Some operands that are labels were not filled with immediate values"
  else
    l.getBytes

/-- Modelled from the spec: `IRToMachineCode` (`assemble.ts`, not in the
source tree) concatenates each record's emitted bytes in order. -/
def IRToMachineCode : List AsmLine → Except String (List Int)
  | [] => Except.ok []
  | l :: rest => do
    let b ← emitRecord l
    let bs ← IRToMachineCode rest
    Except.ok (b ++ bs)

/-- Modelled from the spec: `emulator-constants.ts` is not in the source
tree; registers are unsigned bytes in 0-255 wrapping at 256. -/
def WORD_SIZE : Nat := 256

/-- Modelled from the spec: `emulator-constants.ts` is not in the source
tree; the RAM is a fixed-size byte array. -/
def RAM_SIZE_IN_BYTES : Nat := 256

/-- Modelled from the spec: `common-util.ts`'s `isBitSet(value, bit)`
tests the given (least-significant-first) bit of the value. -/
def isBitSet (value bit : Nat) : Bool := Nat.testBit value bit

/-- `ARPUEmulatorState`: the single mutable aggregate owned by the
emulator. -/
structure ARPUEmulatorState where
  asmLines : List AsmLine
  lineIndex : Nat
  registers : List Nat
  PC : Nat
  ZF : Bool
  COUTF : Bool
  MSBF : Bool
  LSBF : Bool
  PMEM : List Int
  RAM : List Nat
  stack : List Nat
  inputPorts : List Nat
  outputPorts : List Nat
  isWaitingPortInput : Bool
  cycle : Nat
deriving DecidableEq

/-- `defaultARPUEmulatorState`: the fresh state built at construction.
Parsing (`compileIntermediateRepresentation`) is not in the source tree,
so the resolved record list is taken as the input; the machine-code image
is produced eagerly and an encoding failure aborts construction. -/
def defaultARPUEmulatorState (asmLines : List AsmLine) :
    Except String ARPUEmulatorState :=
  (IRToMachineCode asmLines).map fun pmem =>
    { asmLines := asmLines
      lineIndex := 0
      registers := [0, 0, 0, 0]
      PC := 0
      ZF := false
      COUTF := false
      MSBF := false
      LSBF := false
      PMEM := pmem
      RAM := List.replicate RAM_SIZE_IN_BYTES 0
      stack := []
      inputPorts := [0, 0, 0, 0]
      outputPorts := [0, 0, 0, 0]
      isWaitingPortInput := false
      cycle := 0 }

namespace ARPUEmulator

/-- Value of `operands[i].toInt()` as the emulator reads it.  The
emulator executes the resolved intermediate representation ("with filled
in offsets and immediates"), so every operand it reads has a literal
value; an absent or unresolved operand (excluded by the theorems'
hypotheses) defaults to 0. -/
def operandVal (ops : List Operand) (i : Nat) : Nat :=
  ((ops.getD i default).toInt).getD 0

/-- `getFlags()`: the flag vector indexed 0=ZF, 1=COUTF, 2=MSBF, 3=LSBF. -/
def getFlags (s : ARPUEmulatorState) : List Bool :=
  [s.ZF, s.COUTF, s.MSBF, s.LSBF]

/-- `increment` (INC handler): increments `registers[operands[0]]` in
place, wrapping to 0 at `WORD_SIZE`; advances PC, lineIndex and cycle
by 1.  (It reads no source operand and touches no flag.) -/
def increment (s : ARPUEmulatorState) (ops : List Operand) :
    ARPUEmulatorState :=
  let operand1Value := operandVal ops 0
  let v := s.registers.getD operand1Value 0 + 1
  let v := if v ≥ WORD_SIZE then 0 else v
  { s with registers := s.registers.set operand1Value v
           PC := s.PC + 1
           lineIndex := s.lineIndex + 1
           cycle := s.cycle + 1 }

/-- `loadImmediate` (IMM handler): writes the third operand into the
register named by the first; advances PC by 2 but cycle by 1. -/
def loadImmediate (s : ARPUEmulatorState) (ops : List Operand) :
    ARPUEmulatorState :=
  let destinationRegisterIndex := operandVal ops 0
  let immediate := operandVal ops 2
  { s with registers := s.registers.set destinationRegisterIndex immediate
           PC := s.PC + 2
           lineIndex := s.lineIndex + 1
           cycle := s.cycle + 1 }

/-- `portLoad` (PLD handler): only raises the pending-input flag. -/
def portLoad (s : ARPUEmulatorState) : ARPUEmulatorState :=
  { s with isWaitingPortInput := true }

/-- `portStore` (PST handler): copies the register named by operand 0
into the output port named by operand 1; advances PC, lineIndex and
cycle by 1. -/
def portStore (s : ARPUEmulatorState) (ops : List Operand) :
    ARPUEmulatorState :=
  let sourceRegisterIndex := operandVal ops 0
  let portIndex := operandVal ops 1
  { s with outputPorts :=
             s.outputPorts.set portIndex (s.registers.getD sourceRegisterIndex 0)
           PC := s.PC + 1
           lineIndex := s.lineIndex + 1
           cycle := s.cycle + 1 }

/-- `shouldJump`: operand 0 selects the flag, operand 1 is the control
byte (bit 0 = conditional, bit 1 = negate).  Unconditional branches
always jump; conditional ones jump iff the selected flag differs from
the negate bit.  (TypeScript reads `getFlags()[condition]`; an
out-of-range condition yields `undefined`, which `!==` any boolean, so
that case is the constant `true`.) -/
def shouldJump (s : ARPUEmulatorState) (ops : List Operand) : Bool :=
  let condition := operandVal ops 0
  let flags := operandVal ops 1
  let isConditional := isBitSet flags 0
  let isNegate := isBitSet flags 1
  if !isConditional then
    true
  else if condition < 4 then
    ((getFlags s).getD condition false) != isNegate
  else
    true

/-- `branch` (BRA handler): on a taken jump, PC becomes the literal
target offset of operand 2 and lineIndex the result of `findIndex` over
the records for that offset; otherwise PC advances by 2 and lineIndex
by 1.  Cycle advances by 1 either way.  (TypeScript `findIndex` returns
-1 when no record matches; `List.findIdx` returns the list length, an
equally out-of-range index, and every theorem's hypotheses put a record
at the target offset so the case is unreachable there.) -/
def branch (s : ARPUEmulatorState) (ops : List Operand) :
    ARPUEmulatorState :=
  let destinationOffset := operandVal ops 2
  if shouldJump s ops then
    let jumpToIndex :=
      s.asmLines.findIdx (fun asmLine => asmLine.offsetInBytes == some destinationOffset)
    { s with PC := destinationOffset
             lineIndex := jumpToIndex
             cycle := s.cycle + 1 }
  else
    { s with PC := s.PC + 2
             lineIndex := s.lineIndex + 1
             cycle := s.cycle + 1 }

/-- `stackOperation` (SOP handler): operand 1 = 0 pushes the register
named by operand 0 onto the stack (the array's end is the top); any
other operand 1 pops the top into that register, writing 0 when the
stack is empty (`poppedValue === undefined ? 0 : poppedValue`).
Advances PC, lineIndex and cycle by 1. -/
def stackOperation (s : ARPUEmulatorState) (ops : List Operand) :
    ARPUEmulatorState :=
  let isPush := operandVal ops 1 == 0
  let s' :=
    if isPush then
      let sourceRegisterIndex := operandVal ops 0
      let valueToPush := s.registers.getD sourceRegisterIndex 0
      { s with stack := s.stack ++ [valueToPush] }
    else
      let destinationRegisterIndex := operandVal ops 0
      let poppedValue := s.stack.getLast?
      let valueToWrite := poppedValue.getD 0
      { s with registers := s.registers.set destinationRegisterIndex valueToWrite
               stack := s.stack.dropLast }
  { s' with PC := s'.PC + 1
            lineIndex := s'.lineIndex + 1
            cycle := s'.cycle + 1 }

/-- `step()`: refuses to run while a port read is pending, then fetches
the record at `lineIndex` and dispatches on its mnemonic.  An absent
record or a mnemonic with no handler is a thrown `TypeError` in
TypeScript, modelled as an error result. -/
def step (s : ARPUEmulatorState) : Except String ARPUEmulatorState :=
  if s.isWaitingPortInput then
    Except.error "Cannot make a step while waiting for the port input"
  else
    match s.asmLines[s.lineIndex]? with
    | none => Except.error "TypeError: instruction is undefined"
    | some instruction =>
      let ops := instruction.operands
      match instruction.mnemonic with
      | "INC" => Except.ok (increment s ops)
      | "IMM" => Except.ok (loadImmediate s ops)
      | "PLD" => Except.ok (portLoad s)
      | "PST" => Except.ok (portStore s ops)
      | "BRA" => Except.ok (branch s ops)
      | "SOP" => Except.ok (stackOperation s ops)
      | _ => Except.error "TypeError: handler is not a function"

/-- `portInput(value)`: refuses unless a read is pending and the pending
record is a PLD; on success writes the value into the register named by
the record's first operand and the input port named by its second,
clears the pending flag, and advances PC, lineIndex and cycle by 1. -/
def portInput (s : ARPUEmulatorState) (value : Nat) :
    Except String ARPUEmulatorState :=
  if !s.isWaitingPortInput then
    Except.error "Cannot input to port while not waiting for port input"
  else
    match s.asmLines[s.lineIndex]? with
    | none => Except.error "TypeError: instruction is undefined"
    | some asmLine =>
      if asmLine.mnemonic != "PLD" then
        Except.error "Illegal state: current instruction is not PLD but we are waiting for port input"
      else
        let destinationRegisterIndex := operandVal asmLine.operands 0
        let portIndex := operandVal asmLine.operands 1
        Except.ok
          { s with registers := s.registers.set destinationRegisterIndex value
                   inputPorts := s.inputPorts.set portIndex value
                   PC := s.PC + 1
                   lineIndex := s.lineIndex + 1
                   isWaitingPortInput := false
                   cycle := s.cycle + 1 }

end ARPUEmulator

/-! Concrete programs used by the scenario theorems and witnesses. -/

/-- The resolved record list of the one-line program `IMM 0 0 42`. -/
def immProgram : List AsmLine :=
  [{ mnemonic := "IMM", operands := [litOp 0, litOp 0, litOp 42], offsetInBytes := some 0 }]

/-- The resolved record list of the one-line program `INC R1 R2`. -/
def incProgram : List AsmLine :=
  [{ mnemonic := "INC", operands := [litOp 0, litOp 1], offsetInBytes := some 0 }]

/-- The resolved record list of the one-line program `SOP R1 2`
(stack pop into R1). -/
def sopPopProgram : List AsmLine :=
  [{ mnemonic := "SOP", operands := [litOp 0, litOp 2], offsetInBytes := some 0 }]

/-- The resolved record list of the one-line program `PLD R1 0`. -/
def pldProgram : List AsmLine :=
  [{ mnemonic := "PLD", operands := [litOp 0, litOp 0], offsetInBytes := some 0 }]

/-- C1: a freshly constructed emulator for `IMM 0 0 42` completes one
step with registers [42,0,0,0] and PC = 2, but its cycle counter is 1,
not 2: every handler (the two-byte IMM included) increments cycle by
exactly 1, so cycle does not advance by the record's byte size. -/
theorem imm_step_leaves_cycle_one :
    ∃ s s', defaultARPUEmulatorState immProgram = Except.ok s ∧
      ARPUEmulator.step s = Except.ok s' ∧
      s'.registers = [42, 0, 0, 0] ∧ s'.PC = 2 ∧ s'.lineIndex = 1 ∧
      s'.cycle = 1 :=
  ⟨_, _, rfl, rfl, rfl, rfl, rfl, rfl⟩

/-- C7: stepping `INC R1 R2` with R2 preset to 42 increments R1 in
place (ignoring the source operand R2) and leaves every flag untouched:
the result is registers [1,42,0,0] with LSBF still false, not
[43,42,0,0] with LSBF true. -/
theorem inc_step_ignores_source_and_flags :
    ∃ s s', defaultARPUEmulatorState incProgram = Except.ok s ∧
      ARPUEmulator.step { s with registers := [0, 42, 0, 0] } = Except.ok s' ∧
      s'.registers = [1, 42, 0, 0] ∧ s'.ZF = false ∧ s'.MSBF = false ∧
      s'.LSBF = false ∧ s'.PC = 1 ∧ s'.cycle = 1 :=
  ⟨_, _, rfl, rfl, rfl, rfl, rfl, rfl, rfl, rfl⟩

/-- C3: stepping `SOP R1 2` (pop mode) on an empty stack succeeds and
writes the default value 0 into the destination register R1 (overwriting
its previous value 42) instead of failing with a stack underflow error. -/
theorem sop_pop_empty_stack_writes_default :
    ∃ s s', defaultARPUEmulatorState sopPopProgram = Except.ok s ∧
      ARPUEmulator.step { s with registers := [42, 0, 0, 0] } = Except.ok s' ∧
      s'.registers = [0, 0, 0, 0] ∧ s'.stack = [] ∧ s'.PC = 1 ∧
      s'.cycle = 1 :=
  ⟨_, _, rfl, rfl, rfl, rfl, rfl, rfl⟩

/-- C10: a freshly constructed emulator (for any record list whose
encoding succeeds) starts with registers [0,0,0,0], PC = 0,
lineIndex = 0, all four flags false, cycle = 0, an empty stack, every
RAM cell 0, all input and output ports 0, and no pending port input. -/
theorem default_state_initial_values (asmLines : List AsmLine)
    (st : ARPUEmulatorState)
    (h : defaultARPUEmulatorState asmLines = Except.ok st) :
    st.registers = [0, 0, 0, 0] ∧ st.PC = 0 ∧ st.lineIndex = 0 ∧
    st.ZF = false ∧ st.COUTF = false ∧ st.MSBF = false ∧ st.LSBF = false ∧
    st.cycle = 0 ∧ st.stack = [] ∧ (∀ c ∈ st.RAM, c = 0) ∧
    st.inputPorts = [0, 0, 0, 0] ∧ st.outputPorts = [0, 0, 0, 0] ∧
    st.isWaitingPortInput = false := by
  unfold defaultARPUEmulatorState at h
  cases henc : IRToMachineCode asmLines with
  | error e => rw [henc] at h; simp [Except.map] at h
  | ok pmem =>
    rw [henc] at h
    simp only [Except.map] at h
    cases h
    refine ⟨rfl, rfl, rfl, rfl, rfl, rfl, rfl, rfl, rfl, ?_, rfl, rfl, rfl⟩
    intro c hc
    exact List.eq_of_mem_replicate hc

/-- Witness for C10 at the concrete program `IMM 0 0 42`. -/
theorem default_state_initial_values_witness :
    ∃ st, defaultARPUEmulatorState immProgram = Except.ok st ∧
      st.registers = [0, 0, 0, 0] ∧ st.cycle = 0 ∧ st.stack = [] ∧
      (∀ c ∈ st.RAM, c = 0) := by
  refine ⟨_, rfl, ?_⟩
  have h := default_state_initial_values immProgram _ rfl
  exact ⟨h.1, h.2.2.2.2.2.2.2.1, h.2.2.2.2.2.2.2.2.1, h.2.2.2.2.2.2.2.2.2.1⟩

/-! Well-formedness of assembled programs: offsets are the running sum of
record sizes (assigned by the assembler's layout pass), operand arity
matches the mnemonic (validated during parsing), and branch targets name
offsets of existing records. -/

/-- The record list carries the offsets the assembler's layout pass
assigns starting from `base`: each record's offset is the running sum of
the sizes of the records before it. -/
def layoutOK : List AsmLine → Nat → Bool
  | [], _ => true
  | l :: rest, base =>
    l.offsetInBytes == some base && layoutOK rest (base + l.sizeInBytes)

/-- Operand arity as the parser validates it, for the mnemonics the
emulator dispatches on: the two-byte mnemonics carry exactly 3 operands,
the one-byte ones fewer. -/
def arityOK (l : AsmLine) : Bool :=
  match l.mnemonic with
  | "IMM" => l.operands.length == 3
  | "BRA" => l.operands.length == 3
  | "INC" => l.operands.length != 3
  | "PLD" => l.operands.length != 3
  | "PST" => l.operands.length != 3
  | "SOP" => l.operands.length != 3
  | _ => true

/-- Every branch record's literal target is the offset of some record of
the program. -/
def branchTargetsOK (lines : List AsmLine) : Bool :=
  lines.all fun l =>
    l.mnemonic != "BRA" ||
      lines.any fun l' =>
        l'.offsetInBytes == some (ARPUEmulator.operandVal l.operands 2)

/-- The lockstep invariant between the two position counters: the record
the emulator is about to execute (if any) sits at byte offset `PC`. -/
def pcInvariant (s : ARPUEmulatorState) : Bool :=
  match s.asmLines[s.lineIndex]? with
  | none => true
  | some l => l.offsetInBytes == some s.PC

/-- A record's size is at least one byte. -/
theorem AsmLine.one_le_sizeInBytes (l : AsmLine) : 1 ≤ l.sizeInBytes := by
  unfold AsmLine.sizeInBytes
  split <;> omega

/-- Under a valid layout, the head record (if any) sits at the base
offset. -/
theorem layoutOK_head (lines : List AsmLine) (base : Nat)
    (h : layoutOK lines base = true) (l : AsmLine)
    (hl : lines[0]? = some l) : l.offsetInBytes = some base := by
  cases lines with
  | nil => simp at hl
  | cons a rest =>
    simp only [List.getElem?_cons_zero, Option.some_inj] at hl
    subst hl
    simp only [layoutOK, Bool.and_eq_true, beq_iff_eq] at h
    exact h.1

/-- Under a valid layout, every record's offset is at least the base. -/
theorem layoutOK_offset_ge (lines : List AsmLine) (base : Nat)
    (h : layoutOK lines base = true) (i : Nat) (l : AsmLine)
    (hl : lines[i]? = some l) :
    ∃ off, l.offsetInBytes = some off ∧ base ≤ off := by
  induction lines generalizing base i with
  | nil => simp at hl
  | cons a rest ih =>
    simp only [layoutOK, Bool.and_eq_true, beq_iff_eq] at h
    cases i with
    | zero =>
      simp only [List.getElem?_cons_zero, Option.some_inj] at hl
      subst hl
      exact ⟨base, h.1, le_refl base⟩
    | succ k =>
      simp only [List.getElem?_cons_succ] at hl
      obtain ⟨off, hoff, hle⟩ := ih (base + a.sizeInBytes) h.2 k hl
      exact ⟨off, hoff, by omega⟩

/-- Under a valid layout, consecutive records' offsets differ by exactly
the size of the earlier record. -/
theorem layoutOK_consecutive (lines : List AsmLine) (base : Nat)
    (h : layoutOK lines base = true) (i : Nat) (l l' : AsmLine)
    (hl : lines[i]? = some l) (hl' : lines[i + 1]? = some l')
    (off : Nat) (hoff : l.offsetInBytes = some off) :
    l'.offsetInBytes = some (off + l.sizeInBytes) := by
  induction lines generalizing base i with
  | nil => simp at hl
  | cons a rest ih =>
    simp only [layoutOK, Bool.and_eq_true, beq_iff_eq] at h
    cases i with
    | zero =>
      simp only [List.getElem?_cons_zero, Option.some_inj] at hl
      subst hl
      rw [h.1] at hoff
      cases hoff
      simp only [List.getElem?_cons_succ] at hl'
      exact layoutOK_head rest _ h.2 l' hl'
    | succ k =>
      simp only [List.getElem?_cons_succ] at hl hl'
      exact ih (base + a.sizeInBytes) h.2 k hl hl'

/-- `findIndex` over a list containing a record matching the predicate
returns an index holding a matching record. -/
theorem findIdx_of_any (lines : List AsmLine) (p : AsmLine → Bool)
    (h : lines.any p = true) :
    ∃ l, lines[lines.findIdx p]? = some l ∧ p l = true := by
  induction lines with
  | nil => simp at h
  | cons a rest ih =>
    by_cases hp : p a
    · exact ⟨a, by simp [List.findIdx_cons, hp], hp⟩
    · simp only [List.any_cons, Bool.or_eq_true] at h
      rcases h with h | h
      · exact absurd h hp
      · obtain ⟨l, hl, hpl⟩ := ih h
        refine ⟨l, ?_, hpl⟩
        simp [List.findIdx_cons, hp, hl]

/-- Under a valid layout, a record's index is recovered exactly by
`findIndex` on its offset (offsets are strictly increasing, so the first
match is the record itself). -/
theorem layoutOK_findIdx (lines : List AsmLine) (base : Nat)
    (h : layoutOK lines base = true) (j : Nat) (lj : AsmLine)
    (hj : lines[j]? = some lj) (t : Nat) (ht : lj.offsetInBytes = some t) :
    lines.findIdx (fun l => l.offsetInBytes == some t) = j := by
  induction lines generalizing base j with
  | nil => simp at hj
  | cons a rest ih =>
    simp only [layoutOK, Bool.and_eq_true, beq_iff_eq] at h
    cases j with
    | zero =>
      simp only [List.getElem?_cons_zero, Option.some_inj] at hj
      subst hj
      rw [h.1] at ht
      cases ht
      simp [List.findIdx_cons, h.1]
    | succ k =>
      simp only [List.getElem?_cons_succ] at hj
      obtain ⟨off, hoff, hge⟩ := layoutOK_offset_ge rest _ h.2 k lj hj
      rw [ht] at hoff
      cases hoff
      have hsize := AsmLine.one_le_sizeInBytes a
      have hbase : base ≠ t := by omega
      have hpa : (a.offsetInBytes == some t) = false := by
        rw [h.1]
        simp [hbase]
      simp only [List.findIdx_cons, hpa, cond_false]
      rw [ih (base + a.sizeInBytes) h.2 k hj]

/-- A record with other than 3 operands is one byte. -/
theorem sizeInBytes_one (l : AsmLine) (h : (l.operands.length == 3) = false) :
    l.sizeInBytes = 1 := by
  unfold AsmLine.sizeInBytes
  simp [h]

/-- A record with exactly 3 operands is two bytes. -/
theorem sizeInBytes_two (l : AsmLine) (h : l.operands.length = 3) :
    l.sizeInBytes = 2 := by
  unfold AsmLine.sizeInBytes
  simp [h]

/-- Advancing `lineIndex` by one and `PC` by the current record's size
preserves the lockstep invariant. -/
theorem pcInvariant_of_advance (s s' : ARPUEmulatorState)
    (hlay : layoutOK s.asmLines 0 = true) (l : AsmLine)
    (hrec : s.asmLines[s.lineIndex]? = some l)
    (hoff : l.offsetInBytes = some s.PC)
    (hlines : s'.asmLines = s.asmLines)
    (hidx : s'.lineIndex = s.lineIndex + 1)
    (hpc : s'.PC = s.PC + l.sizeInBytes) :
    pcInvariant s' = true := by
  unfold pcInvariant
  rw [hlines, hidx, hpc]
  cases h' : s.asmLines[s.lineIndex + 1]? with
  | none => rfl
  | some l' =>
    show (l'.offsetInBytes == some (s.PC + l.sizeInBytes)) = true
    rw [layoutOK_consecutive s.asmLines 0 hlay s.lineIndex l l' hrec h' s.PC hoff]
    exact beq_self_eq_true _

/-- Retargeting both counters to an existing record's offset preserves
the lockstep invariant. -/
theorem pcInvariant_of_jump (s s' : ARPUEmulatorState) (t : Nat)
    (hany : (s.asmLines.any fun l' => l'.offsetInBytes == some t) = true)
    (hlines : s'.asmLines = s.asmLines)
    (hidx : s'.lineIndex =
      s.asmLines.findIdx fun l' => l'.offsetInBytes == some t)
    (hpc : s'.PC = t) :
    pcInvariant s' = true := by
  obtain ⟨l', hl', hp⟩ := findIdx_of_any _ _ hany
  unfold pcInvariant
  rw [hlines, hidx, hpc, hl']
  exact hp

/-- The SOP handler leaves the record list alone and advances both
position counters by one, whether pushing or popping. -/
theorem stackOperation_counters (s : ARPUEmulatorState) (ops : List Operand) :
    (ARPUEmulator.stackOperation s ops).asmLines = s.asmLines ∧
    (ARPUEmulator.stackOperation s ops).lineIndex = s.lineIndex + 1 ∧
    (ARPUEmulator.stackOperation s ops).PC = s.PC + 1 := by
  simp only [ARPUEmulator.stackOperation]
  split <;> exact ⟨rfl, rfl, rfl⟩

/-- C2: for every program whose offsets are the assembler's running size
sums, whose operand arity was validated, and whose branch targets are
offsets of existing records, the lockstep invariant
`PC = records[lineIndex].offset` holds after every completed `step()`
and after every successful `portInput` resumption, provided it held
before. -/
theorem step_preserves_pc_offset_invariant (s s' : ARPUEmulatorState)
    (hlay : layoutOK s.asmLines 0 = true)
    (har : s.asmLines.all arityOK = true)
    (hbt : branchTargetsOK s.asmLines = true)
    (hinv : pcInvariant s = true) :
    (ARPUEmulator.step s = Except.ok s' → pcInvariant s' = true) ∧
    (∀ v, ARPUEmulator.portInput s v = Except.ok s' → pcInvariant s' = true) := by
  have hcommon : ∀ l, s.asmLines[s.lineIndex]? = some l →
      l.offsetInBytes = some s.PC := by
    intro l hrec
    unfold pcInvariant at hinv
    rw [hrec] at hinv
    exact beq_iff_eq.mp hinv
  constructor
  · intro hstep
    unfold ARPUEmulator.step at hstep
    by_cases hw : s.isWaitingPortInput
    · simp [hw] at hstep
    · rw [if_neg hw] at hstep
      cases hrec : s.asmLines[s.lineIndex]? with
      | none => rw [hrec] at hstep; exact absurd hstep (by simp)
      | some l =>
        rw [hrec] at hstep
        have hmem : l ∈ s.asmLines := List.getElem?_mem hrec
        have harl : arityOK l = true := List.all_eq_true.mp har l hmem
        have hoffl : l.offsetInBytes = some s.PC := hcommon l hrec
        simp only [] at hstep
        split at hstep <;> rename_i hmn <;>
          [skip; skip; skip; skip; skip; skip;
           exact absurd hstep (by simp)]
        · -- INC: one-byte advance
          cases Except.ok.inj hstep
          have h1 : l.sizeInBytes = 1 := by
            apply sizeInBytes_one
            simp [arityOK, hmn] at harl
            simpa using harl
          exact pcInvariant_of_advance s _ hlay l hrec hoffl rfl rfl
            (by rw [h1]; try rfl)
        · -- IMM: two-byte advance
          cases Except.ok.inj hstep
          have h2 : l.sizeInBytes = 2 := by
            apply sizeInBytes_two
            simpa [arityOK, hmn] using harl
          exact pcInvariant_of_advance s _ hlay l hrec hoffl rfl rfl
            (by rw [h2]; try rfl)
        · -- PLD: counters unchanged
          cases Except.ok.inj hstep
          exact hinv
        · -- PST: one-byte advance
          cases Except.ok.inj hstep
          have h1 : l.sizeInBytes = 1 := by
            apply sizeInBytes_one
            simp [arityOK, hmn] at harl
            simpa using harl
          exact pcInvariant_of_advance s _ hlay l hrec hoffl rfl rfl
            (by rw [h1]; try rfl)
        · -- BRA: taken jump lands on an existing record, otherwise
          -- two-byte advance
          cases Except.ok.inj hstep
          have hbtl := List.all_eq_true.mp hbt l hmem
          simp only [hmn] at hbtl
          have hany : (s.asmLines.any fun l' =>
              l'.offsetInBytes == some (ARPUEmulator.operandVal l.operands 2)) = true := by
            simpa using hbtl
          by_cases hj : ARPUEmulator.shouldJump s l.operands = true
          · have hb : ARPUEmulator.branch s l.operands =
                { s with PC := ARPUEmulator.operandVal l.operands 2
                         lineIndex := s.asmLines.findIdx fun asmLine =>
                           asmLine.offsetInBytes ==
                             some (ARPUEmulator.operandVal l.operands 2)
                         cycle := s.cycle + 1 } := by
              simp only [ARPUEmulator.branch, hj, if_true]
            rw [hb]
            exact pcInvariant_of_jump s _ _ hany rfl rfl rfl
          · have hb : ARPUEmulator.branch s l.operands =
                { s with PC := s.PC + 2
                         lineIndex := s.lineIndex + 1
                         cycle := s.cycle + 1 } := by
              simp only [ARPUEmulator.branch, if_neg hj]
            rw [hb]
            have h2 : l.sizeInBytes = 2 := by
              apply sizeInBytes_two
              simpa [arityOK, hmn] using harl
            exact pcInvariant_of_advance s _ hlay l hrec hoffl rfl rfl
              (by rw [h2]; try rfl)
        · -- SOP: one-byte advance
          cases Except.ok.inj hstep
          obtain ⟨ha, hi, hp⟩ := stackOperation_counters s l.operands
          have h1 : l.sizeInBytes = 1 := by
            apply sizeInBytes_one
            simp [arityOK, hmn] at harl
            simpa using harl
          exact pcInvariant_of_advance s _ hlay l hrec hoffl ha hi
            (by rw [hp, h1])
  · intro v h
    unfold ARPUEmulator.portInput at h
    by_cases hw : s.isWaitingPortInput
    · rw [hw] at h
      simp only [Bool.not_true, Bool.false_eq_true, if_false] at h
      cases hrec : s.asmLines[s.lineIndex]? with
      | none => rw [hrec] at h; exact absurd h (by simp)
      | some l =>
        rw [hrec] at h
        by_cases hpld : l.mnemonic = "PLD"
        · simp only [hpld, bne_self_eq_false, Bool.false_eq_true, if_false] at h
          cases Except.ok.inj h
          have hmem : l ∈ s.asmLines := List.getElem?_mem hrec
          have harl : arityOK l = true := List.all_eq_true.mp har l hmem
          have hoffl : l.offsetInBytes = some s.PC := hcommon l hrec
          have h1 : l.sizeInBytes = 1 := by
            apply sizeInBytes_one
            simp [arityOK, hpld] at harl
            simpa using harl
          exact pcInvariant_of_advance s _ hlay l hrec hoffl rfl rfl
            (by rw [h1]; try rfl)
        · have : (l.mnemonic != "PLD") = true := by
            simpa using hpld
          simp only [this, if_true] at h
          exact absurd h (by simp)
    · have hw' : s.isWaitingPortInput = false := by
        revert hw; cases s.isWaitingPortInput <;> simp
      rw [hw'] at h
      simp at h

/-- A two-record program (`IMM 0 0 42` then `INC R1 R2`) with the
offsets the assembler assigns. -/
def twoLineProgram : List AsmLine :=
  [{ mnemonic := "IMM", operands := [litOp 0, litOp 0, litOp 42], offsetInBytes := some 0 },
   { mnemonic := "INC", operands := [litOp 0, litOp 1], offsetInBytes := some 2 }]

/-- The fresh emulator state for `twoLineProgram`, spelled out (the
machine-code image is `[10, 42, 67]`: `IMM` has opcode 10 and carries the
immediate 42 as its second byte; `INC R1 R2` packs to `1*64 + 0*16 + 3`). -/
def twoLineS0 : ARPUEmulatorState :=
  { asmLines := twoLineProgram
    lineIndex := 0
    registers := [0, 0, 0, 0]
    PC := 0
    ZF := false
    COUTF := false
    MSBF := false
    LSBF := false
    PMEM := [10, 42, 67]
    RAM := List.replicate RAM_SIZE_IN_BYTES 0
    stack := []
    inputPorts := [0, 0, 0, 0]
    outputPorts := [0, 0, 0, 0]
    isWaitingPortInput := false
    cycle := 0 }

/-- Witness for C2 on the concrete two-record program: after one step
the invariant still holds (PC = 2 = offset of the second record). -/
theorem step_preserves_pc_offset_invariant_witness :
    defaultARPUEmulatorState twoLineProgram = Except.ok twoLineS0 ∧
    layoutOK twoLineS0.asmLines 0 = true ∧
    twoLineS0.asmLines.all arityOK = true ∧
    branchTargetsOK twoLineS0.asmLines = true ∧
    pcInvariant twoLineS0 = true ∧
    ∃ s', ARPUEmulator.step twoLineS0 = Except.ok s' ∧ pcInvariant s' = true := by
  refine ⟨rfl, rfl, rfl, rfl, rfl, _, rfl, ?_⟩
  exact (step_preserves_pc_offset_invariant twoLineS0 _ rfl rfl rfl rfl).1 rfl

/-- When no port read is pending, `step()` on a BRA record dispatches to
the branch handler. -/
theorem step_dispatch_bra (s : ARPUEmulatorState) (l : AsmLine)
    (hw : s.isWaitingPortInput = false)
    (hrec : s.asmLines[s.lineIndex]? = some l) (hmn : l.mnemonic = "BRA") :
    ARPUEmulator.step s = Except.ok (ARPUEmulator.branch s l.operands) := by
  unfold ARPUEmulator.step
  simp only [hw, Bool.false_eq_true, if_false, hrec]
  rw [hmn]
  rfl

/-- When no port read is pending, `step()` on a PLD record dispatches to
the port-load handler. -/
theorem step_dispatch_pld (s : ARPUEmulatorState) (l : AsmLine)
    (hw : s.isWaitingPortInput = false)
    (hrec : s.asmLines[s.lineIndex]? = some l) (hmn : l.mnemonic = "PLD") :
    ARPUEmulator.step s = Except.ok (ARPUEmulator.portLoad s) := by
  unfold ARPUEmulator.step
  simp only [hw, Bool.false_eq_true, if_false, hrec]
  rw [hmn]
  rfl

/-- C4: on a BRA record with resolved operands (flag selector, control
byte, literal target that is the offset of record `j`), the jump is
taken iff bit 0 of the control byte is clear or the selected flag
(0=ZF, 1=COUTF, 2=MSBF, 3=LSBF) differs from bit 1 (negate); a taken
jump sets PC to the literal target offset and lineIndex to the index of
the record at that offset, and a not-taken branch advances PC by 2 and
lineIndex by 1. -/
theorem bra_branch_resolution (s : ARPUEmulatorState) (l lj : AsmLine)
    (oc oflag ot : Operand) (cond ctrl t j : Nat)
    (hw : s.isWaitingPortInput = false)
    (hrec : s.asmLines[s.lineIndex]? = some l)
    (hmn : l.mnemonic = "BRA")
    (hops : l.operands = [oc, oflag, ot])
    (hc : oc.toInt = some cond) (hf : oflag.toInt = some ctrl)
    (ht : ot.toInt = some t)
    (hcond : cond < 4)
    (hlay : layoutOK s.asmLines 0 = true)
    (hj : s.asmLines[j]? = some lj) (hjoff : lj.offsetInBytes = some t) :
    ∃ s', ARPUEmulator.step s = Except.ok s' ∧
      ((Nat.testBit ctrl 0 = false ∨
          (ARPUEmulator.getFlags s).getD cond false ≠ Nat.testBit ctrl 1) →
        s'.PC = t ∧ s'.lineIndex = j) ∧
      ((Nat.testBit ctrl 0 = true ∧
          (ARPUEmulator.getFlags s).getD cond false = Nat.testBit ctrl 1) →
        s'.PC = s.PC + 2 ∧ s'.lineIndex = s.lineIndex + 1) := by
  have h0v : ARPUEmulator.operandVal l.operands 0 = cond := by
    simp [ARPUEmulator.operandVal, hops, hc]
  have h1v : ARPUEmulator.operandVal l.operands 1 = ctrl := by
    simp [ARPUEmulator.operandVal, hops, hf]
  have h2v : ARPUEmulator.operandVal l.operands 2 = t := by
    simp [ARPUEmulator.operandVal, hops, ht]
  refine ⟨ARPUEmulator.branch s l.operands,
    step_dispatch_bra s l hw hrec hmn, ?_, ?_⟩
  · intro htaken
    have hsj : ARPUEmulator.shouldJump s l.operands = true := by
      unfold ARPUEmulator.shouldJump
      rw [h0v, h1v]
      rcases htaken with hb0 | hne
      · simp [isBitSet, hb0]
      · simp only [isBitSet]
        rcases hb0 : Nat.testBit ctrl 0 with _ | _
        · simp
        · simp only [Bool.not_true, Bool.false_eq_true, if_false, hcond,
            if_true]
          simpa [bne_iff_ne] using hne
    have hb : ARPUEmulator.branch s l.operands =
        { s with PC := t
                 lineIndex := j
                 cycle := s.cycle + 1 } := by
      unfold ARPUEmulator.branch
      rw [hsj, if_pos rfl, h2v,
        layoutOK_findIdx s.asmLines 0 hlay j lj hj t hjoff]
    rw [hb]
    exact ⟨rfl, rfl⟩
  · rintro ⟨hb0, hfl⟩
    have hsj : ARPUEmulator.shouldJump s l.operands = false := by
      unfold ARPUEmulator.shouldJump
      rw [h0v, h1v]
      simp only [isBitSet, hb0, Bool.not_true, Bool.false_eq_true, if_false,
        hcond, if_true]
      rw [List.getD_eq_getElem?_getD] at hfl
      simp [hfl]
    have hb : ARPUEmulator.branch s l.operands =
        { s with PC := s.PC + 2
                 lineIndex := s.lineIndex + 1
                 cycle := s.cycle + 1 } := by
      unfold ARPUEmulator.branch
      rw [hsj]
      rfl
    rw [hb]
    exact ⟨rfl, rfl⟩

/-- A branch program: `BRA 0 0 .branch` / `IMM R1 0 1` / `.branch IMM R1 0 2`,
with assembler offsets 0, 2, 4. -/
def braProgram : List AsmLine :=
  [{ mnemonic := "BRA", operands := [litOp 0, litOp 0, labelOp ".branch" 4],
     offsetInBytes := some 0 },
   { mnemonic := "IMM", operands := [litOp 0, litOp 0, litOp 1],
     offsetInBytes := some 2 },
   { mnemonic := "IMM", operands := [litOp 0, litOp 0, litOp 2],
     offsetInBytes := some 4, label := some ".branch" }]

/-- A running state positioned at the head of `braProgram`. -/
def braS0 : ARPUEmulatorState :=
  { asmLines := braProgram
    lineIndex := 0
    registers := [0, 0, 0, 0]
    PC := 0
    ZF := false
    COUTF := false
    MSBF := false
    LSBF := false
    PMEM := []
    RAM := []
    stack := []
    inputPorts := [0, 0, 0, 0]
    outputPorts := [0, 0, 0, 0]
    isWaitingPortInput := false
    cycle := 0 }

/-- Witness for C4: the unconditional forward jump of `braProgram` lands
on PC = 4, lineIndex = 2. -/
theorem bra_branch_resolution_witness :
    ∃ s', ARPUEmulator.step braS0 = Except.ok s' ∧
      s'.PC = 4 ∧ s'.lineIndex = 2 := by
  obtain ⟨s', hstep, htaken, -⟩ :=
    bra_branch_resolution braS0
      { mnemonic := "BRA", operands := [litOp 0, litOp 0, labelOp ".branch" 4],
        offsetInBytes := some 0 }
      { mnemonic := "IMM", operands := [litOp 0, litOp 0, litOp 2],
        offsetInBytes := some 4, label := some ".branch" }
      (litOp 0) (litOp 0) (labelOp ".branch" 4) 0 0 4 2
      rfl rfl rfl rfl rfl rfl rfl (by decide) rfl rfl rfl
  exact ⟨s', hstep, htaken (Or.inl (by decide))⟩

/-- C5: stepping a PLD record (with resolved register operand `r` and
port operand `p`) only raises `isWaitingPortInput` — the resulting state
is the old one with that single flag changed — and a subsequent
`portInput v` writes `v` into register `r` and input port `p`, clears
the flag, and advances PC, lineIndex and cycle each by 1. -/
theorem pld_port_read_protocol (s : ARPUEmulatorState) (l : AsmLine)
    (o1 o2 : Operand) (r p : Nat)
    (hw : s.isWaitingPortInput = false)
    (hrec : s.asmLines[s.lineIndex]? = some l)
    (hmn : l.mnemonic = "PLD")
    (hops : l.operands = [o1, o2])
    (h1 : o1.toInt = some r) (h2 : o2.toInt = some p) :
    ARPUEmulator.step s = Except.ok { s with isWaitingPortInput := true } ∧
    ∀ v, ARPUEmulator.portInput { s with isWaitingPortInput := true } v =
      Except.ok { s with registers := s.registers.set r v
                         inputPorts := s.inputPorts.set p v
                         PC := s.PC + 1
                         lineIndex := s.lineIndex + 1
                         isWaitingPortInput := false
                         cycle := s.cycle + 1 } := by
  have hv0 : ARPUEmulator.operandVal l.operands 0 = r := by
    simp [ARPUEmulator.operandVal, hops, h1]
  have hv1 : ARPUEmulator.operandVal l.operands 1 = p := by
    simp [ARPUEmulator.operandVal, hops, h2]
  constructor
  · rw [step_dispatch_pld s l hw hrec hmn]
    rfl
  · intro v
    unfold ARPUEmulator.portInput
    simp only [Bool.not_true, Bool.false_eq_true, if_false, hrec, hmn,
      bne_self_eq_false, hv0, hv1]

/-- C6: `step()` fails with the illegal-state error whenever a port read
is pending, and `portInput` fails whenever no read is pending or the
pending record is not a PLD.  (Each failing call returns an error and no
state: the embedding is pure and the TypeScript originals throw before
touching any field, so a failing call leaves the emulator unchanged.) -/
theorem illegal_state_errors (s : ARPUEmulatorState) :
    (s.isWaitingPortInput = true →
      ARPUEmulator.step s =
        Except.error "Cannot make a step while waiting for the port input") ∧
    (s.isWaitingPortInput = false → ∀ v,
      ARPUEmulator.portInput s v =
        Except.error "Cannot input to port while not waiting for port input") ∧
    (∀ v l, s.isWaitingPortInput = true →
      s.asmLines[s.lineIndex]? = some l → l.mnemonic ≠ "PLD" →
      ARPUEmulator.portInput s v =
        Except.error "Illegal state: current instruction is not PLD but we are waiting for port input") := by
  refine ⟨?_, ?_, ?_⟩
  · intro hw
    unfold ARPUEmulator.step
    rw [if_pos hw]
  · intro hw v
    unfold ARPUEmulator.portInput
    rw [hw]
    rfl
  · intro v l hw hrec hmn
    unfold ARPUEmulator.portInput
    rw [hw]
    simp only [Bool.not_true, Bool.false_eq_true, if_false, hrec]
    have : (l.mnemonic != "PLD") = true := by simpa using hmn
    rw [this]
    rfl

/-- The fresh emulator state for `pldProgram` (PLD has opcode 9, so the
image is the single byte 9). -/
def pldS0 : ARPUEmulatorState :=
  { asmLines := pldProgram
    lineIndex := 0
    registers := [0, 0, 0, 0]
    PC := 0
    ZF := false
    COUTF := false
    MSBF := false
    LSBF := false
    PMEM := [9]
    RAM := List.replicate RAM_SIZE_IN_BYTES 0
    stack := []
    inputPorts := [0, 0, 0, 0]
    outputPorts := [0, 0, 0, 0]
    isWaitingPortInput := false
    cycle := 0 }

/-- Witness for C5: the `PLD R1 0` scenario — step raises only the
pending flag, then `portInput 2` yields registers [2,0,0,0],
inputPorts [2,0,0,0], PC = 1, cycle = 1. -/
theorem pld_port_read_protocol_witness :
    defaultARPUEmulatorState pldProgram = Except.ok pldS0 ∧
    ARPUEmulator.step pldS0 = Except.ok { pldS0 with isWaitingPortInput := true } ∧
    ARPUEmulator.portInput { pldS0 with isWaitingPortInput := true } 2 =
      Except.ok { pldS0 with registers := [2, 0, 0, 0]
                             inputPorts := [2, 0, 0, 0]
                             PC := 1
                             lineIndex := 1
                             isWaitingPortInput := false
                             cycle := 1 } := by
  have h := pld_port_read_protocol pldS0
    { mnemonic := "PLD", operands := [litOp 0, litOp 0], offsetInBytes := some 0 }
    (litOp 0) (litOp 0) 0 0 rfl rfl rfl rfl rfl rfl
  exact ⟨rfl, h.1, h.2 2⟩

/-- Witness for C6 at concrete states built over `braProgram`: a pending
read blocks `step`, a missing pending read blocks `portInput`, and a
pending read over a non-PLD record blocks `portInput`. -/
theorem illegal_state_errors_witness :
    ARPUEmulator.step { braS0 with isWaitingPortInput := true } =
      Except.error "Cannot make a step while waiting for the port input" ∧
    ARPUEmulator.portInput braS0 7 =
      Except.error "Cannot input to port while not waiting for port input" ∧
    ARPUEmulator.portInput { braS0 with isWaitingPortInput := true } 7 =
      Except.error "Illegal state: current instruction is not PLD but we are waiting for port input" :=
  ⟨(illegal_state_errors _).1 rfl,
   (illegal_state_errors braS0).2.1 rfl 7,
   (illegal_state_errors _).2.2 7
     { mnemonic := "BRA", operands := [litOp 0, litOp 0, labelOp ".branch" 4],
       offsetInBytes := some 0 }
     rfl rfl (by decide)⟩

/-- C8: for a record whose operands are all resolved to the literals
`vals`, `getBytes()` packs operand 1 (0 if absent) times 64 (bits 6-7)
plus operand 0 times 16 (bits 4-5) plus the opcode (bits 0-3) into byte
one and appends a present third operand verbatim; and a data-directive
record is emitted as exactly the one raw byte holding its single literal
operand, with no opcode encoding. -/
theorem getBytes_packing (l : AsmLine) (vals : List Nat)
    (h : l.operands.map Operand.toInt = vals.map some) :
    l.getBytes = Except.ok
      (((vals.getD 1 0 : Int) * 64 + (vals.getD 0 0 : Int) * 16 + l.opcode) ::
        (match (vals[2]? : Option Nat) with
         | none => ([] : List Int)
         | some v => [(v : Int)])) ∧
    (∀ n, l.mnemonic = DATA_MNEMONIC → vals = [n] →
      emitRecord l = Except.ok [(n : Int)]) := by
  constructor
  · unfold AsmLine.getBytes
    rw [h]
    have hany : ((vals.map some).any fun i => i.isNone) = false := by simp
    simp only [hany, Bool.false_eq_true, if_false]
    have hg : ∀ i : Nat, (vals.map some).getD i none = vals[i]? := by
      intro i
      rw [List.getD_eq_getElem?_getD, List.getElem?_map]
      cases vals[i]? <;> rfl
    rw [hg 0, hg 1, hg 2]
    have hgD : ∀ i : Nat, (vals[i]?).getD 0 = vals.getD i 0 := by
      intro i
      rw [List.getD_eq_getElem?_getD]
    rw [hgD 0, hgD 1]
    cases vals[2]? <;> rfl
  · intro n hmn hvals
    subst hvals
    unfold emitRecord AsmLine.getIsData
    rw [hmn]
    simp only [beq_self_eq_true, if_true]
    cases lops : l.operands with
    | nil => rw [lops] at h; simp at h
    | cons o rest =>
      rw [lops] at h
      simp only [List.map_cons, List.map_cons, List.map_nil,
        List.cons.injEq] at h
      obtain ⟨ho, hrest⟩ := h
      cases rest with
      | nil => simp [ho]
      | cons o2 r2 => simp at hrest

/-- An unlabelled BRA record whose target operand is the plain literal 4
(no label): `BRA 0 0 4` at offset 0. -/
def braLiteralLine : AsmLine :=
  { mnemonic := "BRA", operands := [litOp 0, litOp 0, litOp 4],
    offsetInBytes := some 0 }

/-- C9 counterexample: `isHalt` compares label names, not offsets.  The
unlabelled record `BRA 0 0 4` at offset 0 has `isHalt = true` (both the
operand's label and the record's label are absent, and in TypeScript
`undefined === undefined`), yet it is not a return and its literal
target offset 4 differs from its own offset 0 — so "halt iff self-loop
branch or RET 1" fails. -/
theorem isHalt_literal_branch_counterexample :
    braLiteralLine.isHalt = true ∧
    braLiteralLine.mnemonic = "BRA" ∧
    braLiteralLine.label = none ∧
    braLiteralLine.offsetInBytes = some 0 ∧
    (braLiteralLine.operands.getD 2 default).toInt = some 4 ∧
    braLiteralLine.mnemonic ≠ "RET" :=
  ⟨rfl, rfl, rfl, rfl, rfl, by decide⟩

/-- C9 amended: `isHalt` is true iff the branch's target operand names
the record's own label (or the record is a RET with first operand 1);
for a labelled BRA whose target operand is a label reference resolved
injectively (each defined label name to its unique offset) the
label-name comparison coincides with "literal target offset equals the
record's own offset". -/
theorem isHalt_label_characterization (l : AsmLine)
    (resolve : String → Option Nat) (L t : String)
    (hmn : l.mnemonic = "BRA")
    (hlabel : l.label = some L)
    (hop : (l.operands.getD 2 default).getLabel = some t)
    (hopres : (l.operands.getD 2 default).toInt = resolve t)
    (hLres : resolve L = l.offsetInBytes)
    (hoff : l.offsetInBytes.isSome = true)
    (hinj : ∀ a b, (resolve a).isSome = true → resolve a = resolve b → a = b) :
    l.isHalt = true ↔ (l.operands.getD 2 default).toInt = l.offsetInBytes := by
  unfold AsmLine.isHalt
  rw [hmn, hlabel, hop]
  constructor
  · intro hh
    simp only [beq_self_eq_true, Bool.true_and, Option.some.injEq,
      Bool.or_eq_true, beq_iff_eq] at hh
    rcases hh with hh | hh
    · rw [hopres, hh, hLres]
    · rw [show (("BRA" == "RET") : Bool) = false from rfl] at hh
      simp at hh
  · intro he
    rw [hopres] at he
    have hts : (resolve t).isSome = true := by rw [he]; exact hoff
    have : t = L := hinj t L hts (by rw [he, hLres])
    simp [this]

/-- Witness for C8: `IMM 0 0 42` packs to bytes [10, 42] (IMM has
opcode 10), and `DW 7` is emitted as the single raw byte 7. -/
theorem getBytes_packing_witness :
    AsmLine.getBytes
      { mnemonic := "IMM", operands := [litOp 0, litOp 0, litOp 42],
        offsetInBytes := some 0 } = Except.ok [10, 42] ∧
    emitRecord { mnemonic := "DW", operands := [litOp 7] } =
      Except.ok [7] := by
  constructor
  · exact ((getBytes_packing
      { mnemonic := "IMM", operands := [litOp 0, litOp 0, litOp 42],
        offsetInBytes := some 0 } [0, 0, 42] rfl).1).trans rfl
  · exact (getBytes_packing { mnemonic := "DW", operands := [litOp 7] }
      [7] rfl).2 7 rfl rfl

/-- The label-resolution map of the one-label program used by the C9
witness: `.b` resolves to offset 0, everything else is undefined. -/
def resolveB : String → Option Nat :=
  fun n => if n == ".b" then some 0 else none

/-- The self-loop branch `.b BRA 0 0 .b` at offset 0. -/
def selfLoopLine : AsmLine :=
  { mnemonic := "BRA", operands := [litOp 0, litOp 0, labelOp ".b" 0],
    offsetInBytes := some 0, label := some ".b" }

/-- Witness for the amended C9: the labelled self-loop branch is a halt,
and the characterization applies with the concrete injective resolution
map. -/
theorem isHalt_label_characterization_witness :
    selfLoopLine.isHalt = true :=
  (isHalt_label_characterization selfLoopLine resolveB ".b" ".b"
    rfl rfl rfl rfl rfl rfl
    (by
      intro a b ha heq
      simp only [resolveB] at ha heq
      by_cases h1 : (a == ".b") = true
      · simp only [h1, if_true] at heq
        by_cases h2 : (b == ".b") = true
        · exact (eq_of_beq h1).trans (eq_of_beq h2).symm
        · simp only [Bool.not_eq_true] at h2
          rw [h2] at heq
          simp at heq
      · simp only [Bool.not_eq_true] at h1
        rw [h1] at ha
        simp at ha)).mpr rfl
